import Mathlib

/-!
Verification development for the PASCAL agent runner
(`AgentAddIn1/external/agent_runner.py` in the `pascal_ai` repository).

The Python module is shallowly embedded below.  Python `dict`s become
insertion-ordered association lists, JSON values become the inductive
`JValue`, the OpenAI chat call becomes an explicitly passed function
from message lists to raw output strings, and `json.loads` becomes an
explicitly passed function from strings to optional `JValue`s (every
theorem quantifies over it, so the theorems hold for the real parser).
Exceptions are modelled with `Except`.  Numeric payloads are opaque to
every function modelled here, so JSON numbers are carried as integers.
String handling is modelled at ASCII level (the vocabulary and markers
handled by the code are all ASCII).
-/

namespace AgentRunner

/-- Json-like values, standing for the Python values produced by `json.loads`. -/
inductive JValue where
  | null : JValue
  | bool (b : Bool) : JValue
  | num (n : Int) : JValue
  | str (s : String) : JValue
  | arr (xs : List JValue) : JValue
  | obj (fields : List (String × JValue)) : JValue

/-- Model of a Python dict as an insertion-ordered association list with
distinct keys; lookup takes the first binding. -/
abbrev Dict := List (String × JValue)

/-- Python `d.get(k)` (returns `None`, i.e. `none`, when the key is absent). -/
def getD (d : Dict) (k : String) : Option JValue :=
  (d.find? (fun p => p.1 == k)).map (·.2)

/-- Python `k in d`. -/
def hasKey (d : Dict) (k : String) : Bool :=
  d.any (fun p => p.1 == k)

/-- Python `d[k] = v`: updates the binding in place, or appends a new one. -/
def setD (d : Dict) (k : String) (v : JValue) : Dict :=
  if hasKey d k then d.map (fun p => if p.1 == k then (k, v) else p) else d ++ [(k, v)]

/-- Python `d.setdefault(k, v)`. -/
def setDefault (d : Dict) (k : String) (v : JValue) : Dict :=
  if hasKey d k then d else d ++ [(k, v)]

/-- Python truthiness of a JSON-shaped value. -/
def jTruthy : JValue → Bool
  | .null => false
  | .bool b => b
  | .num n => n != 0
  | .str s => s != ""
  | .arr xs => !xs.isEmpty
  | .obj fs => !fs.isEmpty

/-- The character `\x7b` (opening curly bracket). -/
def lbrace : Char := Char.ofNat 123

/-- The character `\x7d` (closing curly bracket). -/
def rbrace : Char := Char.ofNat 125

/-- The backquote character used by Markdown code fences. -/
def btick : Char := Char.ofNat 96

/-- ASCII whitespace as recognised by Python `str.strip` / `\s`: space, tab,
newline, carriage return, vertical tab, form feed (code points 32, 9, 10,
13, 11, 12). -/
def pySpace (c : Char) : Bool :=
  c.toNat == 32 || c.toNat == 9 || c.toNat == 10 || c.toNat == 13
    || c.toNat == 11 || c.toNat == 12

/-- Both-ends whitespace strip on character lists. -/
def stripL (l : List Char) : List Char :=
  ((l.dropWhile pySpace).reverse.dropWhile pySpace).reverse

/-- Python `s.strip()`. -/
def pyStrip (s : String) : String := String.mk (stripL s.toList)

/-- Lower-casing of a character list (ASCII, as in the code's vocabulary). -/
def lowerL (l : List Char) : List Char := l.map Char.toLower

/-- Python `s.lower()`. -/
def pyLower (s : String) : String := String.mk (lowerL s.toList)

/-- A Markdown code fence: three backquotes. -/
def fenceChars : List Char := [btick, btick, btick]

/-- The four characters of the optional `json` tag after an opening fence. -/
def jsonTagChars : List Char := ['j', 's', 'o', 'n']

/-- Drops a trailing run of characters satisfying `p`. -/
def dropTrailing (p : Char → Bool) (l : List Char) : List Char :=
  (l.reverse.dropWhile p).reverse

/-- Embedding of `strip_code_fences`: the Python function strips the text and
then deletes, via one `re.sub` over `^\x60\x60\x60(?:json)?\s*|\s*\x60\x60\x60$`
(case-insensitive), an opening fence with optional `json` tag plus following
whitespace, and a trailing whitespace run followed by a closing fence at the
very end, finally stripping again.  Because the subject string is stripped
first, the `$` anchor can only match at the end of the string, giving exactly
the two deletions performed below. -/
def strip_code_fences (text : String) : String :=
  if text == "" then text else
  let cs := stripL text.toList
  let cs1 :=
    if cs.take 3 == fenceChars then
      let r := cs.drop 3
      let r := if lowerL (r.take 4) == jsonTagChars then r.drop 4 else r
      r.dropWhile pySpace
    else cs
  let cs2 :=
    if cs1.reverse.take 3 == fenceChars then
      dropTrailing pySpace (cs1.take (cs1.length - 3))
    else cs1
  String.mk (stripL cs2)

/-- Embedding of the scanning loop of `extract_json_object`: walk the
characters from the first opening brace, tracking nesting depth, and return
the span ending at the brace that brings the depth back to zero.  `acc` is
the span accumulated so far; the depth is an integer exactly as in Python. -/
def scanBalanced : List Char → Int → List Char → Option (List Char)
  | [], _, _ => none
  | c :: rest, depth, acc =>
    if c = lbrace then scanBalanced rest (depth + 1) (acc ++ [c])
    else if c = rbrace then
      if depth - 1 = 0 then some (acc ++ [c])
      else scanBalanced rest (depth - 1) (acc ++ [c])
    else scanBalanced rest depth (acc ++ [c])

/-- Embedding of `extract_json_object`: strip code fences, find the first
opening brace, and slice out the balanced span; when there is no opening
brace or no balanced span, return the fence-stripped text unchanged. -/
def extract_json_object (text : String) : String :=
  let s := strip_code_fences text
  let rest := s.toList.dropWhile (fun c => c != lbrace)
  match rest with
  | [] => s
  | _ :: _ =>
    match scanBalanced rest 0 [] with
    | some span => String.mk span
    | none => s

/-- Number of opening braces minus number of closing braces. -/
def braceDelta (l : List Char) : Int :=
  (l.count lbrace : Int) - (l.count rbrace : Int)

/-- Declarative description of the scanning loop's answer relative to a
starting depth `d`: position `k` is the first place where the running depth
reaches zero. -/
def firstClose (l : List Char) (d : Int) (k : Nat) : Prop :=
  0 < k ∧ k ≤ l.length ∧ d + braceDelta (l.take k) = 0 ∧
    ∀ j, j < k → 0 < j → d + braceDelta (l.take j) ≠ 0

/-- Declarative description of the balanced span at the start of `rest`
(`rest` begins at the first opening brace): the prefix of length `k` is the
shortest nonempty prefix with equally many opening and closing braces. -/
def minBalancedAt (rest : List Char) (k : Nat) : Prop :=
  0 < k ∧ k ≤ rest.length ∧ braceDelta (rest.take k) = 0 ∧
    ∀ j, j < k → 0 < j → braceDelta (rest.take j) ≠ 0

instance (rest : List Char) (k : Nat) : Decidable (minBalancedAt rest k) := by
  unfold minBalancedAt
  infer_instance

lemma braceDelta_nil : braceDelta [] = 0 := by simp [braceDelta]

lemma braceDelta_cons (c : Char) (l : List Char) :
    braceDelta (c :: l) =
      (if c = lbrace then 1 else if c = rbrace then -1 else 0) + braceDelta l := by
  have hne : lbrace ≠ rbrace := by decide
  by_cases h1 : c = lbrace
  · subst h1
    simp [braceDelta, List.count_cons, hne, Ne.symm hne]
    ring
  · by_cases h2 : c = rbrace
    · subst h2
      simp [braceDelta, List.count_cons, h1, hne, Ne.symm hne]
      ring
    · simp [braceDelta, List.count_cons, h1, h2]

lemma scanBalanced_found : ∀ (l : List Char) (d : Int) (acc : List Char) (k : Nat),
    1 ≤ d → firstClose l d k → scanBalanced l d acc = some (acc ++ l.take k)
  | [], d, acc, k, _, hfc => by
      rcases hfc with ⟨hk, hlen, _, _⟩
      simp at hlen
      omega
  | c :: t, d, acc, k, hd, hfc => by
      rcases hfc with ⟨hk, hlen, hbal, hmin⟩
      obtain ⟨k', rfl⟩ : ∃ k', k = k' + 1 := ⟨k - 1, by omega⟩
      have htake : (c :: t).take (k' + 1) = c :: t.take k' := by simp
      rw [htake, braceDelta_cons] at hbal
      by_cases hc1 : c = lbrace
      · -- depth increases
        have hk' : 0 < k' := by
          rcases Nat.eq_zero_or_pos k' with h0 | h0
          · subst h0; simp [hc1, braceDelta_nil] at hbal; omega
          · exact h0
        have hfc' : firstClose t (d + 1) k' := by
          refine ⟨hk', by simpa using hlen, by rw [hc1] at hbal; simp at hbal; omega, ?_⟩
          intro j hj hj0
          have := hmin (j + 1) (by omega) (by omega)
          rw [show (c :: t).take (j + 1) = c :: t.take j by simp, braceDelta_cons] at this
          rw [hc1] at this; simp at this
          intro hcontra
          exact this (by omega)
        have ih := scanBalanced_found t (d + 1) (acc ++ [c]) k' (by omega) hfc'
        simp only [scanBalanced, if_pos hc1]
        rw [ih]
        simp
      · by_cases hc2 : c = rbrace
        · -- depth decreases
          rw [if_neg hc1, hc2] at hbal
          simp at hbal
          by_cases hdone : d - 1 = 0
          · -- this closing brace finishes the span: k must be 1
            have hk1 : k' = 0 := by
              by_contra hne
              have := hmin 1 (by omega) (by omega)
              rw [show (c :: t).take 1 = [c] by simp, hc2] at this
              have hb1 : braceDelta [rbrace] = -1 := by decide
              rw [hb1] at this
              omega
            subst hk1
            simp only [scanBalanced, if_neg hc1, if_pos hc2, if_pos hdone]
            simp
          · have hd2 : 1 ≤ d - 1 := by
              -- if d = 1 then the balance would have closed here
              rcases Nat.eq_zero_or_pos k' with h0 | h0
              · subst h0; simp [braceDelta_nil] at hbal; omega
              · by_contra hlt
                have hdeq : d = 1 := by omega
                have := hmin 1 (by omega) (by omega)
                rw [show (c :: t).take 1 = [c] by simp, hc2] at this
                have hb1 : braceDelta [rbrace] = -1 := by decide
                rw [hb1] at this
                omega
            have hk' : 0 < k' := by
              rcases Nat.eq_zero_or_pos k' with h0 | h0
              · subst h0; simp [braceDelta_nil] at hbal; omega
              · exact h0
            have hfc' : firstClose t (d - 1) k' := by
              refine ⟨hk', by simpa using hlen, by omega, ?_⟩
              intro j hj hj0
              have := hmin (j + 1) (by omega) (by omega)
              rw [show (c :: t).take (j + 1) = c :: t.take j by simp, braceDelta_cons] at this
              rw [if_neg hc1, hc2] at this; simp at this
              intro hcontra
              exact this (by omega)
            have ih := scanBalanced_found t (d - 1) (acc ++ [c]) k' hd2 hfc'
            simp only [scanBalanced, if_neg hc1, if_pos hc2, if_neg hdone]
            rw [ih]
            simp
        · -- neutral character
          rw [if_neg hc1, if_neg hc2] at hbal
          simp at hbal
          have hk' : 0 < k' := by
            rcases Nat.eq_zero_or_pos k' with h0 | h0
            · subst h0; simp [braceDelta_nil] at hbal; omega
            · exact h0
          have hfc' : firstClose t d k' := by
            refine ⟨hk', by simpa using hlen, by omega, ?_⟩
            intro j hj hj0
            have := hmin (j + 1) (by omega) (by omega)
            rw [show (c :: t).take (j + 1) = c :: t.take j by simp, braceDelta_cons] at this
            rw [if_neg hc1, if_neg hc2] at this; simp at this
            intro hcontra
            exact this (by omega)
          have ih := scanBalanced_found t d (acc ++ [c]) k' hd hfc'
          simp only [scanBalanced, if_neg hc1, if_neg hc2]
          rw [ih]
          simp

lemma scanBalanced_notFound : ∀ (l : List Char) (d : Int) (acc : List Char),
    1 ≤ d → (∀ k, k ≤ l.length → 0 < k → d + braceDelta (l.take k) ≠ 0) →
    scanBalanced l d acc = none
  | [], _, _, _, _ => by simp [scanBalanced]
  | c :: t, d, acc, hd, hno => by
      have hstep : ∀ j, j ≤ t.length → 0 < j →
          d + braceDelta ((c :: t).take (j + 1)) ≠ 0 := fun j hj hj0 =>
        hno (j + 1) (by simpa using Nat.succ_le_succ hj) (by omega)
      by_cases hc1 : c = lbrace
      · have hno' : ∀ k, k ≤ t.length → 0 < k → (d + 1) + braceDelta (t.take k) ≠ 0 := by
          intro k hk hk0
          have := hstep k hk hk0
          rw [show (c :: t).take (k + 1) = c :: t.take k by simp, braceDelta_cons,
            if_pos hc1] at this
          intro hcontra
          exact this (by omega)
        simp only [scanBalanced, if_pos hc1]
        exact scanBalanced_notFound t (d + 1) (acc ++ [c]) (by omega) hno'
      · by_cases hc2 : c = rbrace
        · have h1 := hno 1 (by simp) (by omega)
          rw [show (c :: t).take 1 = [c] by simp, hc2] at h1
          have hb1 : braceDelta [rbrace] = -1 := by decide
          rw [hb1] at h1
          have hdone : ¬ (d - 1 = 0) := by omega
          have hno' : ∀ k, k ≤ t.length → 0 < k → (d - 1) + braceDelta (t.take k) ≠ 0 := by
            intro k hk hk0
            have := hstep k hk hk0
            rw [show (c :: t).take (k + 1) = c :: t.take k by simp, braceDelta_cons,
              if_neg hc1, if_pos hc2] at this
            intro hcontra
            exact this (by omega)
          simp only [scanBalanced, if_neg hc1, if_pos hc2, if_neg hdone]
          exact scanBalanced_notFound t (d - 1) (acc ++ [c]) (by omega) hno'
        · have hno' : ∀ k, k ≤ t.length → 0 < k → d + braceDelta (t.take k) ≠ 0 := by
            intro k hk hk0
            have := hstep k hk hk0
            rw [show (c :: t).take (k + 1) = c :: t.take k by simp, braceDelta_cons,
              if_neg hc1, if_neg hc2] at this
            intro hcontra
            exact this (by omega)
          simp only [scanBalanced, if_neg hc1, if_neg hc2]
          exact scanBalanced_notFound t d (acc ++ [c]) hd hno'

lemma head_dropWhile_not (p : Char → Bool) :
    ∀ (l : List Char) (c : Char) (t : List Char),
      l.dropWhile p = c :: t → p c = false
  | [], _, _, h => by simp [List.dropWhile] at h
  | a :: l, c, t, h => by
      by_cases ha : p a
      · rw [List.dropWhile_cons, if_pos (by simpa using ha)] at h
        exact head_dropWhile_not p l c t h
      · rw [List.dropWhile_cons, if_neg (by simpa using ha)] at h
        cases h
        simpa using ha

/-- Claim C5: for every input text whose fence-stripped form contains a
balanced brace span starting at the first opening brace, the extraction step
returns exactly that span (from the first opening brace to its matching
closing brace, i.e. the shortest nonempty prefix from the first opening brace
with balanced braces); when no balanced span exists, it returns the
fence-stripped text unchanged. -/
theorem claim_C5 (text : String) :
    (∀ k, minBalancedAt ((strip_code_fences text).toList.dropWhile (fun c => c != lbrace)) k →
        extract_json_object text =
          String.mk
            (((strip_code_fences text).toList.dropWhile (fun c => c != lbrace)).take k))
    ∧ ((∀ k, k ≤ ((strip_code_fences text).toList.dropWhile (fun c => c != lbrace)).length →
          0 < k →
          braceDelta (((strip_code_fences text).toList.dropWhile (fun c => c != lbrace)).take k)
            ≠ 0) →
        extract_json_object text = strip_code_fences text) := by
  cases hrest : (strip_code_fences text).toList.dropWhile (fun c => c != lbrace) with
  | nil =>
      constructor
      · intro k hmin
        rcases hmin with ⟨hk, hlen, _, _⟩
        simp at hlen
        omega
      · intro _
        simp only [extract_json_object]
        rw [hrest]
  | cons c t =>
      have hc : c = lbrace := by
        have := head_dropWhile_not (fun c => c != lbrace) _ c t hrest
        simpa using this
      subst hc
      constructor
      · intro k hmin
        rcases hmin with ⟨hk, hlen, hbal, hmin'⟩
        obtain ⟨k', rfl⟩ : ∃ k', k = k' + 1 := ⟨k - 1, by omega⟩
        have hk' : 0 < k' := by
          rcases Nat.eq_zero_or_pos k' with h0 | h0
          · subst h0
            rw [show (lbrace :: t).take 1 = [lbrace] by simp] at hbal
            have : braceDelta [lbrace] = 1 := by decide
            rw [this] at hbal
            omega
          · exact h0
        have hfc : firstClose t 1 k' := by
          refine ⟨hk', by simpa using hlen, ?_, ?_⟩
          · rw [show (lbrace :: t).take (k' + 1) = lbrace :: t.take k' by simp,
              braceDelta_cons, if_pos rfl] at hbal
            omega
          · intro j hj hj0
            have := hmin' (j + 1) (by omega) (by omega)
            rw [show (lbrace :: t).take (j + 1) = lbrace :: t.take j by simp,
              braceDelta_cons, if_pos rfl] at this
            intro hcontra
            exact this (by omega)
        have hstep : scanBalanced (lbrace :: t) 0 [] = scanBalanced t 1 [lbrace] := by
          simp [scanBalanced]
        have hscan : scanBalanced (lbrace :: t) 0 [] = some ((lbrace :: t).take (k' + 1)) := by
          rw [hstep, scanBalanced_found t 1 [lbrace] k' (by omega) hfc]
          simp
        simp only [extract_json_object]
        rw [hrest, hscan]
      · intro hno
        have hno' : ∀ k, k ≤ t.length → 0 < k → (1 : Int) + braceDelta (t.take k) ≠ 0 := by
          intro k hk hk0
          have := hno (k + 1) (by simpa using Nat.succ_le_succ hk) (by omega)
          rw [show (lbrace :: t).take (k + 1) = lbrace :: t.take k by simp,
            braceDelta_cons, if_pos rfl] at this
          intro hcontra
          exact this (by omega)
        have hstep : scanBalanced (lbrace :: t) 0 [] = scanBalanced t 1 [lbrace] := by
          simp [scanBalanced]
        have hscan : scanBalanced (lbrace :: t) 0 [] = none := by
          rw [hstep]
          exact scanBalanced_notFound t 1 [lbrace] (by omega) hno'
        simp only [extract_json_object]
        rw [hrest, hscan]

/-- Claim C5 witness: on a concrete text with prose around a balanced object,
`extract_json_object` returns exactly the balanced span. -/
theorem claim_C5_witness :
    extract_json_object "say \x7bA\x7d ok" = "\x7bA\x7d" :=
  (claim_C5 "say \x7bA\x7d ok").1 3 (by decide)

/-- The five recognised reply statuses. -/
def statusNames : List String :=
  ["need_clarification", "planned", "ready_to_execute", "executing", "done"]

/-- The five allowed action names. -/
def actionNames : List String :=
  ["create_sketch", "add_rectangle", "add_circle", "extrude_last_profile", "add_text"]

/-- Embedding of `coerce_defaults`: fills the five defaultable fields with
`setdefault` (status is not defaulted here). -/
def coerce_defaults (d : Dict) : Dict :=
  let d := setDefault d "assistant_message" (.str "")
  let d := setDefault d "questions" (.arr [])
  let d := setDefault d "plan" (.arr [])
  let d := setDefault d "actions" (.arr [])
  setDefault d "requires_confirmation" (.bool false)

/-- Splits a character list at separator characters; whether a character is a
separator may depend on the immediately preceding character of the original
list.  Splitting at each separator character (rather than at maximal runs, as
the `re.split` patterns in the code do) produces extra empty pieces between
adjacent separators, and those are removed by the strip-and-drop-empty step
that always follows, so the final results agree with the code. -/
def splitSeps (isSep : Option Char → Char → Bool) :
    List Char → Option Char → List Char → List (List Char)
  | [], _, cur => [cur.reverse]
  | c :: rest, prev, cur =>
    if isSep prev c then cur.reverse :: splitSeps isSep rest (some c) []
    else splitSeps isSep rest (some c) (c :: cur)

/-- Separators of the questions splitter: newline characters, or whitespace
immediately after a question mark (the lookbehind in the code's pattern). -/
def questionSep (prev : Option Char) (c : Char) : Bool :=
  c == '\r' || c == '\n' || (pySpace c && prev == some '?')

/-- Embedding of the `questions` string split in `normalize_types`. -/
def splitQuestions (s : String) : List String :=
  (((splitSeps questionSep s.toList none []).map stripL).filter
    (fun p => !p.isEmpty)).map String.mk

/-- Characters stripped from plan items: space, dash, tab. -/
def planStripChar (c : Char) : Bool := c == ' ' || c == '-' || c == '\t'

/-- Both-ends strip over an arbitrary character set, as Python `strip(chars)`. -/
def stripSetL (p : Char → Bool) (l : List Char) : List Char :=
  ((l.dropWhile p).reverse.dropWhile p).reverse

/-- Embedding of the `plan` string split in `normalize_types`.  The filter
tests whitespace-stripped non-emptiness of each piece, while the kept pieces
are stripped of spaces, dashes, and tabs — exactly as the comprehension in
the source (a piece of only dashes is kept and becomes the empty string). -/
def splitPlan (s : String) : List String :=
  (((splitSeps (fun _ c => c == '\r' || c == '\n') s.toList none []).filter
      (fun p => !(stripL p).isEmpty)).map (stripSetL planStripChar)).map String.mk

/-- The `status` step of `normalize_types`: an unrecognised status is forced
to `need_clarification`. -/
def normStatus (out : Dict) : Dict :=
  if (match getD out "status" with
      | some (.str s) => statusNames.contains s
      | _ => false) then out
  else setD out "status" (.str "need_clarification")

/-- The `questions` step of `normalize_types`: a string is split, a non-list
becomes the empty list. -/
def normQuestions (out : Dict) : Dict :=
  match getD out "questions" with
  | some (.str q) => setD out "questions" (.arr ((splitQuestions q).map JValue.str))
  | some (.arr _) => out
  | _ => setD out "questions" (.arr [])

/-- The `plan` step of `normalize_types`. -/
def normPlan (out : Dict) : Dict :=
  match getD out "plan" with
  | some (.str p) => setD out "plan" (.arr ((splitPlan p).map JValue.str))
  | some (.arr _) => out
  | _ => setD out "plan" (.arr [])

/-- The `actions` step of `normalize_types`: a string is fed back to
`json.loads` (empty list when that raises), a non-list becomes the empty
list. -/
def normActions (jsonLoads : String → Option JValue) (out : Dict) : Dict :=
  match getD out "actions" with
  | some (.str a) =>
      (match jsonLoads a with
       | some v => setD out "actions" v
       | none => setD out "actions" (.arr []))
  | some (.arr _) => out
  | _ => setD out "actions" (.arr [])

/-- The `requires_confirmation` step of `normalize_types`: a string is
interpreted as a truthy word, anything that is not a bool becomes `false`. -/
def normRc (out : Dict) : Dict :=
  match getD out "requires_confirmation" with
  | some (.bool _) => out
  | some (.str rc) =>
      setD out "requires_confirmation"
        (.bool (["true", "yes", "1"].contains (pyLower (pyStrip rc))))
  | _ => setD out "requires_confirmation" (.bool false)

/-- Embedding of `normalize_types`: best-effort coercions before validation,
applied field by field in the order of the source.  `json.loads` (used on a
string-typed `actions` field) is passed explicitly. -/
def normalize_types (jsonLoads : String → Option JValue) (raw : Dict) : Dict :=
  normRc (normActions jsonLoads (normPlan (normQuestions (normStatus raw))))

/-- The per-entry test of `filter_allowed_actions`: the entry is a dict whose
`action` value is one of the allowed names (nothing else is checked there). -/
def actionTagOk (v : JValue) : Bool :=
  match v with
  | .obj f =>
      match getD f "action" with
      | some (.str a) => actionNames.contains a
      | _ => false
  | _ => false

/-- The accumulating loop of `filter_allowed_actions` (`filtered = []` plus
`append` inside a `for`). -/
def filterLoop : List JValue → List JValue → List JValue
  | acc, [] => acc
  | acc, a :: rest =>
      if actionTagOk a then filterLoop (acc ++ [a]) rest else filterLoop acc rest

/-- Embedding of `filter_allowed_actions` at the dict level. -/
def filter_allowed_actions (raw : Dict) : Dict :=
  match (getD raw "actions").getD (.arr []) with
  | .arr l => setD raw "actions" (.arr (filterLoop [] l))
  | _ => setD raw "actions" (.arr [])

/-- Modelled from the spec: a well-formed Action per the claim's words — a
dict whose kind tag is one of the five allowed action names and whose
parameter dict is present.  Used only to compare the claim's wording with the
code's actual filter. -/
def specWellFormedAction (v : JValue) : Bool :=
  match v with
  | .obj f =>
      (match getD f "action" with
       | some (.str a) => actionNames.contains a
       | _ => false)
      &&
      (match getD f "params" with
       | some (.obj _) => true
       | _ => false)
  | _ => false

lemma filterLoop_eq (l : List JValue) : ∀ acc, filterLoop acc l = acc ++ l.filter actionTagOk := by
  induction l with
  | nil => intro acc; simp [filterLoop]
  | cons a rest ih =>
      intro acc
      by_cases h : actionTagOk a
      · simp [filterLoop, h, ih]
      · simp [filterLoop, h, ih]

/-- Claim C4 counterexample: the filter keeps an entry that has an allowed
action tag but no params dict, which the claim's notion of well-formed Action
excludes. -/
theorem claim_C4_counterexample :
    filterLoop [] [JValue.obj [("action", JValue.str "add_circle")]]
      = [JValue.obj [("action", JValue.str "add_circle")]]
    ∧ specWellFormedAction (JValue.obj [("action", JValue.str "add_circle")]) = false :=
  ⟨rfl, rfl⟩

/-- Claim C4 (amended): for every candidate actions list, the filter returns
exactly the sublist of entries that are dicts whose action tag is one of the
five allowed names — presence of the params dict is not checked at this stage
— preserving the original relative order, discarding every other entry, and
(being a total function) raising no exception. -/
theorem claim_C4 (l : List JValue) :
    filterLoop [] l = l.filter actionTagOk
    ∧ (filterLoop [] l).Sublist l
    ∧ ∀ v, v ∈ filterLoop [] l → actionTagOk v = true := by
  have he : filterLoop [] l = l.filter actionTagOk := by simpa using filterLoop_eq l []
  refine ⟨he, ?_, ?_⟩
  · rw [he]
    exact List.filter_sublist l
  · intro v hv
    rw [he] at hv
    exact List.of_mem_filter hv

/-- Claim C4 witness: applying the order/soundness statement to a concrete
one-element list. -/
theorem claim_C4_witness :
    actionTagOk (JValue.obj [("action", JValue.str "add_circle"), ("params", JValue.obj [])])
      = true :=
  (claim_C4 [JValue.obj [("action", JValue.str "add_circle"), ("params", JValue.obj [])]]).2.2
    _ (List.mem_singleton.mpr rfl)

/-- Embedding of the pydantic `Action` model: a tag from the allowed set (the
tag constraint is enforced by `validateAction`) and a parameter dict. -/
structure Action where
  action : String
  params : List (String × JValue)

/-- Embedding of the pydantic `AgentReply` model. -/
structure AgentReply where
  status : String
  assistant_message : String
  questions : List String
  plan : List String
  actions : List Action
  requires_confirmation : Bool

/-- Embedding of `Action.model_validate` (pydantic, `extra="forbid"`): the
value must be a dict with no keys beyond `action` and `params`, `action` must
be one of the five allowed literals, and `params` must be a dict. -/
def validateAction (v : JValue) : Option Action :=
  match v with
  | .obj f =>
      if f.all (fun p => p.1 == "action" || p.1 == "params") then
        match getD f "action", getD f "params" with
        | some (.str a), some (.obj ps) =>
            if actionNames.contains a then some ⟨a, ps⟩ else none
        | _, _ => none
      else none
  | _ => none

/-- Embedding of `AgentReply.model_validate` (pydantic, `extra="forbid"`) for
JSON-shaped inputs: unknown keys are rejected, `status` is a required literal,
the remaining fields take their declared defaults when absent and must
otherwise have their declared shapes.  Cross-type lax coercions that cannot
arrive here (the normalizer already forces the relevant shapes) are not
modelled. -/
def validateAgentReply (d : Dict) : Option AgentReply := do
  let allKeys : List String :=
    ["status", "assistant_message", "questions", "plan", "actions", "requires_confirmation"]
  if !(d.all (fun p => allKeys.contains p.1)) then none else
  match getD d "status" with
  | some (.str s) =>
      if !(statusNames.contains s) then none else do
      let am ← match getD d "assistant_message" with
        | none => some ""
        | some (.str m) => some m
        | some _ => none
      let qs ← match getD d "questions" with
        | none => some []
        | some (.arr xs) => xs.mapM (fun v => match v with | .str q => some q | _ => none)
        | some _ => none
      let pl ← match getD d "plan" with
        | none => some []
        | some (.arr xs) => xs.mapM (fun v => match v with | .str q => some q | _ => none)
        | some _ => none
      let acts ← match getD d "actions" with
        | none => some []
        | some (.arr xs) => xs.mapM validateAction
        | some _ => none
      let rc ← match getD d "requires_confirmation" with
        | none => some false
        | some (.bool b) => some b
        | some _ => none
      some ⟨s, am, qs, pl, acts, rc⟩
  | _ => none

/-- Serialization of an `Action` (pydantic `model_dump`, field order). -/
def serializeAction (a : Action) : JValue :=
  .obj [("action", .str a.action), ("params", .obj a.params)]

/-- Serialization of an `AgentReply` (pydantic `model_dump`, field order). -/
def serializeReplyFields (r : AgentReply) : Dict :=
  [("status", .str r.status),
   ("assistant_message", .str r.assistant_message),
   ("questions", .arr (r.questions.map JValue.str)),
   ("plan", .arr (r.plan.map JValue.str)),
   ("actions", .arr (r.actions.map serializeAction)),
   ("requires_confirmation", .bool r.requires_confirmation)]

/-- Claim C8: the normalization pipeline (defaulting, type coercion, action
filtering) is idempotent on schema-valid replies — on the serialized form of
a reply whose status is one of the five recognised values and whose actions
all carry allowed tags, the pipeline is the identity, for every behaviour of
the JSON parser. -/
theorem claim_C8 (jsonLoads : String → Option JValue) (r : AgentReply)
    (hs : statusNames.contains r.status = true)
    (ha : ∀ a ∈ r.actions, actionNames.contains a.action = true) :
    filter_allowed_actions (normalize_types jsonLoads (coerce_defaults (serializeReplyFields r)))
      = serializeReplyFields r := by
  have hc : coerce_defaults (serializeReplyFields r) = serializeReplyFields r := rfl
  have hfilter : filterLoop [] (r.actions.map serializeAction) = r.actions.map serializeAction := by
    have he : filterLoop [] (r.actions.map serializeAction)
        = (r.actions.map serializeAction).filter actionTagOk := by
      simpa using filterLoop_eq (r.actions.map serializeAction) []
    rw [he]
    apply List.filter_eq_self.mpr
    intro v hv
    obtain ⟨a, ha', rfl⟩ := List.mem_map.mp hv
    simpa [actionTagOk, serializeAction, getD] using ha a ha'
  have hst : normStatus (serializeReplyFields r) = serializeReplyFields r := by
    have hcond : (match getD (serializeReplyFields r) "status" with
        | some (JValue.str s) => statusNames.contains s
        | _ => false) = true := hs
    unfold normStatus
    simp only [hcond, if_true]
  have hn : normalize_types jsonLoads (serializeReplyFields r) = serializeReplyFields r := by
    show normRc (normActions jsonLoads (normPlan (normQuestions (normStatus
      (serializeReplyFields r))))) = serializeReplyFields r
    rw [hst]
    rfl
  rw [hc, hn]
  show setD (serializeReplyFields r) "actions"
      (.arr (filterLoop [] (r.actions.map serializeAction))) = serializeReplyFields r
  rw [hfilter]
  rfl

/-- Claim C8 witness: idempotence applied to the concrete fallback reply. -/
theorem claim_C8_witness :
    filter_allowed_actions (normalize_types (fun _ => none)
        (coerce_defaults (serializeReplyFields
          ⟨"need_clarification", "m", ["q"], [], [], false⟩)))
      = serializeReplyFields ⟨"need_clarification", "m", ["q"], [], [], false⟩ :=
  claim_C8 (fun _ => none) ⟨"need_clarification", "m", ["q"], [], [], false⟩ (by decide)
    (by intro a ha; simp at ha)

/-- A chat message: role and content. -/
structure Msg where
  role : String
  content : String

/-- Exceptions that can escape the model-calling code: the missing-credential
RuntimeError, and the TypeError raised by `dict()` on a parsed non-dict
(that call sits outside the `try` blocks in the source). -/
inductive RunError where
  | missingApiKey : RunError
  | coerceTypeError : RunError
deriving DecidableEq

/-- Python `dict(x)` as used at the head of `coerce_defaults`: a dict is
copied; a list is accepted when it is a list of two-element `[key, value]`
pairs with string keys (later pairs win); everything else raises, and the
exception propagates out of `ask_model_with_retries`.  Exotic iterables that
`dict()` also accepts (pair lists with non-string keys, two-character
strings) are not modelled; no theorem below depends on them. -/
def pairOfJ : JValue → Option (String × JValue)
  | .arr [.str k, v'] => some (k, v')
  | _ => none

def pyDict : JValue → Option Dict
  | .obj f => some f
  | .arr xs => (xs.mapM pairOfJ).map (fun ps => ps.foldl (fun d p => setD d p.1 p.2) [])
  | _ => none

/-- The canned fallback reply returned after exhausting retries. -/
def fallbackReply : AgentReply :=
  { status := "need_clarification"
  , assistant_message :=
      "I had trouble producing a valid plan. Please restate your request with sizes, plane, and position."
  , questions :=
      ["What exact sizes (with units)?",
       "Which plane (XY, YZ, XZ)?",
       "Where should it be positioned (e.g., centered at origin or specific coordinates)?"]
  , plan := []
  , actions := []
  , requires_confirmation := false }

/-- Failure of a single model attempt: the raw output did not parse as JSON,
or the normalized dict failed schema validation. -/
inductive AttemptFailure where
  | parseFail (raw : String) : AttemptFailure
  | validateFail : AttemptFailure

/-- The error text recorded after a failed attempt and fed back to the model.
The source interpolates the Python exception text, which is opaque to every
claim, so it is abbreviated here; the structure is kept (parse errors embed
up to 500 characters of the raw output). -/
def errTextOf : AttemptFailure → String
  | .parseFail raw => "JSON parse error" ++ "\nRaw: " ++ raw.take 500
  | .validateFail => "AgentReply schema validation error"

/-- The corrective system message prepended on retry attempts. -/
def fixBlockMsg : Msg :=
  ⟨"system",
   "Your previous reply did not strictly match the required JSON schema. " ++
   "You must return ONLY a single JSON object with the required keys. " ++
   "Do not include markdown, code fences, or explanations."⟩

/-- The message list sent on one attempt: on attempts after the first (when
`prev` records the previous raw output and failure), the corrective block is
appended, then the previous raw output when non-empty (the source guards with
truthiness), then the recorded error text when non-empty. -/
def attemptMsgs (base : List Msg) : Option (String × AttemptFailure) → List Msg
  | none => base
  | some (c, f) =>
      base ++ [fixBlockMsg]
        ++ (if c == "" then [] else [⟨"user", "Previous output:\n" ++ c⟩])
        ++ (if errTextOf f == "" then []
            else [⟨"user", "Schema/validation errors:\n" ++ errTextOf f⟩])

/-- Record of one attempt: the messages sent, the raw output received, and
the failure (`none` means the attempt produced a schema-valid reply). -/
structure Attempt where
  msgs : List Msg
  content : String
  failure : Option AttemptFailure

/-- Result of `ask_model_with_retries`: the attempts made and the reply. -/
structure AskResult where
  attempts : List Attempt
  reply : AgentReply

/-- One attempt's parse/normalize/validate pipeline: the raw output is
fence-stripped and brace-sliced, fed to `json.loads`, converted with
`dict()` (raising when that is impossible), then defaulted, normalized,
filtered, and validated against the reply schema. -/
def attemptOutcome (jsonLoads : String → Option JValue) (content : String) :
    Except RunError (Sum AgentReply AttemptFailure) :=
  match jsonLoads (extract_json_object content) with
  | none => .ok (.inr (.parseFail content))
  | some parsed =>
      match pyDict parsed with
      | none => .error .coerceTypeError
      | some d0 =>
          match validateAgentReply
              (filter_allowed_actions (normalize_types jsonLoads (coerce_defaults d0))) with
          | some r => .ok (.inl r)
          | none => .ok (.inr .validateFail)

/-- The retry loop of `ask_model_with_retries`, by remaining attempts.
`prev` carries the previous raw output and failure (set exactly when an
attempt has failed), `acc` the attempts so far.  (The fixed sleep between
retries has no observable effect here.) -/
def askGo (llm : List Msg → String) (jsonLoads : String → Option JValue)
    (base : List Msg) :
    Nat → Option (String × AttemptFailure) → List Attempt → Except RunError AskResult
  | 0, _, acc => .ok ⟨acc, fallbackReply⟩
  | n + 1, prev, acc =>
      let msgs := attemptMsgs base prev
      let content := llm msgs
      match attemptOutcome jsonLoads content with
      | .error e => .error e
      | .ok (.inl r) => .ok ⟨acc ++ [⟨msgs, content, none⟩], r⟩
      | .ok (.inr f) =>
          askGo llm jsonLoads base n (some (content, f)) (acc ++ [⟨msgs, content, some f⟩])

/-- `MAX_TRIES` from the source. -/
def MAX_TRIES : Nat := 3

/-- Embedding of `ask_model_with_retries`: raises when the API key is absent,
otherwise runs up to `MAX_TRIES` attempts. -/
def ask (llm : List Msg → String) (jsonLoads : String → Option JValue)
    (apiKey : Option String) (messages : List Msg) : Except RunError AskResult :=
  match apiKey with
  | none => .error .missingApiKey
  | some _ => askGo llm jsonLoads messages MAX_TRIES none []

/-- The hypothesis that every parsed model output is dict-coercible (in
practice: a JSON object), so that `dict()` cannot raise. -/
def dictSafe (llm : List Msg → String) (jsonLoads : String → Option JValue) : Prop :=
  ∀ msgs v, jsonLoads (extract_json_object (llm msgs)) = some v → (pyDict v).isSome

/-- The relation between consecutive attempts: the earlier one failed, and
the later one's message list is the base messages plus the corrective block,
the previous raw output (when non-empty), and the recorded error text. -/
def correctiveStep (base : List Msg) (a b : Attempt) : Prop :=
  ∃ f, a.failure = some f ∧
    b.msgs = base ++ [fixBlockMsg]
      ++ (if a.content == "" then [] else [⟨"user", "Previous output:\n" ++ a.content⟩])
      ++ [⟨"user", "Schema/validation errors:\n" ++ errTextOf f⟩]

lemma errTextOf_ne_empty (f : AttemptFailure) : (errTextOf f == "") = false := by
  cases f with
  | parseFail raw =>
      rw [beq_eq_false_iff_ne]
      intro h
      have hlen : (errTextOf (.parseFail raw)).length = 0 := by rw [h]; rfl
      have h16 : ("JSON parse error" : String).length = 16 := rfl
      simp only [errTextOf, String.length_append] at hlen
      omega
  | validateFail => rfl

lemma attemptMsgs_some (base : List Msg) (c : String) (f : AttemptFailure) :
    attemptMsgs base (some (c, f)) =
      base ++ [fixBlockMsg]
        ++ (if c == "" then [] else [⟨"user", "Previous output:\n" ++ c⟩])
        ++ [⟨"user", "Schema/validation errors:\n" ++ errTextOf f⟩] := by
  simp [attemptMsgs, errTextOf_ne_empty f]

lemma attemptOutcome_ne_error (llm : List Msg → String) (jsonLoads : String → Option JValue)
    (hsafe : dictSafe llm jsonLoads) (msgs : List Msg) (e : RunError) :
    attemptOutcome jsonLoads (llm msgs) ≠ .error e := by
  intro h
  unfold attemptOutcome at h
  cases hp : jsonLoads (extract_json_object (llm msgs)) with
  | none => simp only [hp] at h; cases h
  | some parsed =>
      simp only [hp] at h
      have hsome := hsafe msgs parsed hp
      cases hd : pyDict parsed with
      | none => rw [hd] at hsome; simp at hsome
      | some d0 =>
          simp only [hd] at h
          cases hv : validateAgentReply
              (filter_allowed_actions (normalize_types jsonLoads (coerce_defaults d0))) with
          | none => simp only [hv] at h; cases h
          | some r => simp only [hv] at h; cases h

lemma askGo_spec (llm : List Msg → String) (jsonLoads : String → Option JValue)
    (base : List Msg) (hsafe : dictSafe llm jsonLoads) :
    ∀ (fuel : Nat) (prev : Option (String × AttemptFailure)) (acc : List Attempt),
      ∃ xs reply, askGo llm jsonLoads base fuel prev acc = .ok ⟨acc ++ xs, reply⟩
        ∧ xs.length ≤ fuel
        ∧ List.Chain' (correctiveStep base) xs
        ∧ (∀ a, xs.head? = some a → a.msgs = attemptMsgs base prev)
        ∧ ((∀ a ∈ xs, a.failure ≠ none) → xs.length = fuel ∧ reply = fallbackReply) := by
  intro fuel
  induction fuel with
  | zero =>
      intro prev acc
      exact ⟨[], fallbackReply, by simp [askGo], by simp, by simp, by simp, fun _ => ⟨rfl, rfl⟩⟩
  | succ n ih =>
      intro prev acc
      cases ho : attemptOutcome jsonLoads (llm (attemptMsgs base prev)) with
      | error e => exact absurd ho (attemptOutcome_ne_error llm jsonLoads hsafe _ e)
      | ok outcome =>
          cases outcome with
          | inl r =>
              refine ⟨[⟨attemptMsgs base prev, llm (attemptMsgs base prev), none⟩], r, ?_, ?_,
                ?_, ?_, ?_⟩
              · simp only [askGo, ho]
              · simp
              · simp
              · intro a ha
                simp at ha
                subst ha
                rfl
              · intro hall
                exact absurd
                  (hall ⟨attemptMsgs base prev, llm (attemptMsgs base prev), none⟩ (by simp))
                  (by simp)
          | inr f =>
              obtain ⟨xs', reply', heq, hlen, hchain, hhead, hall⟩ :=
                ih (some (llm (attemptMsgs base prev), f))
                  (acc ++ [⟨attemptMsgs base prev, llm (attemptMsgs base prev), some f⟩])
              refine ⟨⟨attemptMsgs base prev, llm (attemptMsgs base prev), some f⟩ :: xs',
                reply', ?_, by simpa using hlen, ?_, ?_, ?_⟩
              · simp only [askGo, ho]
                rw [heq]
                simp
              · rw [List.chain'_cons']
                refine ⟨?_, hchain⟩
                intro b hb
                refine ⟨f, rfl, ?_⟩
                rw [hhead b hb, attemptMsgs_some]
              · intro a ha
                simp at ha
                subst ha
                rfl
              · intro hfail
                have hxs' : ∀ a ∈ xs', a.failure ≠ none := fun a ha =>
                  hfail a (List.mem_cons_of_mem _ ha)
                obtain ⟨hl, hr⟩ := hall hxs'
                exact ⟨by simp [hl], hr⟩

/-- Claim C6 (amended): provided the backend credential is present and every
parsed model output is dict-shaped, the model invocation client never raises:
for every behaviour of the model it makes at most 3 attempts, each attempt
after the first appends the corrective instruction, the previous raw output
when non-empty, and the recorded parse/validation error of the previous
attempt, and if no attempt yields a schema-valid reply it returns the canned
need-clarification reply asking for exact sizes, plane, and position, with
empty plan and actions and `requires_confirmation` false. -/
theorem claim_C6 (llm : List Msg → String) (jsonLoads : String → Option JValue)
    (apiKey : String) (messages : List Msg) (hsafe : dictSafe llm jsonLoads) :
    ∃ res : AskResult, ask llm jsonLoads (some apiKey) messages = .ok res
      ∧ res.attempts.length ≤ 3
      ∧ res.attempts ≠ []
      ∧ (∀ a, res.attempts.head? = some a → a.msgs = messages)
      ∧ List.Chain' (correctiveStep messages) res.attempts
      ∧ ((∀ a ∈ res.attempts, a.failure ≠ none) → res.reply = fallbackReply
          ∧ res.reply.status = "need_clarification" ∧ res.reply.plan = []
          ∧ res.reply.actions = [] ∧ res.reply.requires_confirmation = false) := by
  obtain ⟨xs, reply, heq, hlen, hchain, hhead, hall⟩ :=
    askGo_spec llm jsonLoads messages hsafe MAX_TRIES none []
  refine ⟨⟨xs, reply⟩, by simpa [ask] using heq, hlen, ?_, hhead, hchain, ?_⟩
  · intro hnil
    have hx : xs = [] := hnil
    subst hx
    have := (hall (by intro a ha; cases ha)).1
    simp [MAX_TRIES] at this
  · intro hfail
    have hfb := (hall hfail).2
    subst hfb
    exact ⟨rfl, rfl, rfl, rfl, rfl⟩

/-- Claim C6 witness: the amended statement applied to a model that never
parses, with the credential present. -/
theorem claim_C6_witness :
    ∃ res : AskResult, ask (fun _ => "") (fun _ => none) (some "k") [] = .ok res
      ∧ res.attempts.length ≤ 3
      ∧ res.attempts ≠ []
      ∧ (∀ a, res.attempts.head? = some a → a.msgs = [])
      ∧ List.Chain' (correctiveStep []) res.attempts
      ∧ ((∀ a ∈ res.attempts, a.failure ≠ none) → res.reply = fallbackReply
          ∧ res.reply.status = "need_clarification" ∧ res.reply.plan = []
          ∧ res.reply.actions = [] ∧ res.reply.requires_confirmation = false) :=
  claim_C6 (fun _ => "") (fun _ => none) "k" [] (fun _ v h => by cases h)

/-- Claim C6 counterexample: with the backend credential absent the client
raises to its caller (the RuntimeError of the source) instead of resolving to
a fallback reply, so the claim that it never raises is false as stated. -/
theorem claim_C6_counterexample :
    ask (fun _ => "") (fun _ => none) none [] = .error .missingApiKey := rfl

/-- The system prompt of the source.  The prompt text is opaque to every
claim and to all control flow, so the long prose is abbreviated. -/
def SYSTEM_ROLE : String := "You are PASCAL Agent, a Fusion CAD assistant. (protocol rules)"

/-- The user-guide system prompt of the source (abbreviated, as above). -/
def USER_GUIDE : String := "Ask clarifying questions until confident. (guide text)"

/-- The content of the format-example system message (abbreviated, as above). -/
def EXAMPLE_NEED_CLARIFY_CONTENT : String := "FORMAT EXAMPLE (structure example)"

/-- The code's confirmation vocabulary (the exact-match set). -/
def confirmWords : List String :=
  ["yes", "y", "ok", "okay", "sure", "proceed", "confirm", "go ahead",
   "looks good", "sounds good", "do it", "yes do it", "alright", "yep", "yeah"]

/-- Bool test that `p` is a prefix of `l`. -/
def startsWithL (p l : List Char) : Bool := l.take p.length == p

/-- Embedding of `is_confirmation_text`: strip and lower-case the text, then
test emptiness, membership in the vocabulary, and `yes`/`ok` prefixes. -/
def is_confirmation_text (t : String) : Bool :=
  let t' := lowerL (stripL t.toList)
  !t'.isEmpty &&
    (confirmWords.any (fun w => t' == w.toList)
      || startsWithL "yes".toList t' || startsWithL "ok".toList t')

/-- The plan-confirmation question (source `CONFIRM_QUESTION`). -/
def CONFIRM_QUESTION : String :=
  "Are you happy with this plan? Reply \x27yes\x27 to proceed to execution, or describe any changes."

/-- The session state fields read and written by `main`.  The session id and
the state-file round-trip are not claim-relevant and are omitted;
`last_status` / `last_actions` hold `null` when absent. -/
structure StateRec where
  history : List JValue
  lastStatus : JValue
  lastActions : JValue

/-- A history turn replayed into the prompt: the source keeps any dict with
`role` and `content` keys.  Turns whose role or content are not strings are
never produced by the persistence code and are opaque to every claim, so
they are dropped here. -/
def turnToMsg (v : JValue) : Option Msg :=
  match v with
  | .obj f =>
      match getD f "role", getD f "content" with
      | some (.str r), some (.str c) => some ⟨r, c⟩
      | _, _ => none
  | _ => none

/-- The last `n` elements of a list (Python `l[-n:]` for nonnegative `n`). -/
def lastN (n : Nat) (l : List JValue) : List JValue := l.drop (l.length - n)

/-- The fixed confirmation sentence injected for `confirm_execute` events. -/
def confirmSentence : String := "User confirms: proceed with execution of proposed actions."

/-- Embedding of `build_messages_from_state`. -/
def build_messages_from_state (st : StateRec) (event : String) (user_message : String) :
    List Msg :=
  [⟨"system", SYSTEM_ROLE⟩, ⟨"system", USER_GUIDE⟩,
   ⟨"system", EXAMPLE_NEED_CLARIFY_CONTENT⟩]
    ++ (lastN 8 st.history).filterMap turnToMsg
    ++ [if event == "user_message" then ⟨"user", user_message⟩
        else if event == "confirm_execute" then ⟨"user", confirmSentence⟩
        else if event == "execution_result" then
          ⟨"user", "Execution result from Fusion host: " ++ user_message⟩
        else ⟨"user", user_message⟩]

/-- The directive injected when the user just approved the plan. -/
def forceConvertMsg : Msg :=
  ⟨"user",
   "User approves the plan. Convert the previously proposed plan into actions now. " ++
   "Return ONLY JSON with status=\x27ready_to_execute\x27, actions[], requires_confirmation=true, " ++
   "and a short assistant_message. Do not ask more questions."⟩

/-- The default-filling directive of the second forced pass. -/
def defaultFillMsg : Msg :=
  ⟨"user",
   "You MUST now output actions[]. If any detail is missing, assume defaults: " ++
   "plane=XY, position=(0,0), units=cm (convert mm to cm by /10). " ++
   "Return ONLY JSON with status=\x27ready_to_execute\x27, actions[], requires_confirmation=true."⟩

/-- The plan-confirmation step of `main`: a planned reply always carries the
confirmation question (appended unless already present up to strip/lower). -/
def addPlannedQuestion (r : AgentReply) : AgentReply :=
  if r.status == "planned" then
    if r.questions.all (fun q => !(pyLower (pyStrip q) == pyLower CONFIRM_QUESTION)) then
      { r with questions := r.questions ++ [CONFIRM_QUESTION] }
    else r
  else r

/-- The done-gating step of `main`: a reply from any event other than
`execution_result` is never left as `done`; with actions it is downgraded to
`ready_to_execute` with forced confirmation, without actions to `planned`. -/
def doneGate (event : String) (r : AgentReply) : AgentReply :=
  if event != "execution_result" && r.status == "done" then
    if !r.actions.isEmpty then
      { r with
        status := "ready_to_execute"
        requires_confirmation := true
        assistant_message :=
          (if r.assistant_message == "" then "Plan prepared; ready to execute when you confirm."
           else r.assistant_message) }
    else
      { r with
        status := "planned"
        assistant_message :=
          (if r.assistant_message == "" then "Plan prepared. Confirm to proceed, or describe changes."
           else r.assistant_message) }
  else r

/-- The confirmation-forcing step of `main` for ready replies. -/
def rcFix (r : AgentReply) : AgentReply :=
  if r.status == "ready_to_execute" && !r.requires_confirmation then
    { r with requires_confirmation := true }
  else r

/-- The `confirm_execute` fallback's reuse of the persisted action list:
`state.get("last_actions") or []`, then validation of every entry; any
failure — including a truthy non-list, whose iteration or per-entry
validation raises — is swallowed by the `except: pass`, leaving the reply
untouched.  The list comprehension is evaluated before the assignment, so a
failure mutates nothing. -/
def reuseActions (la : JValue) : Option (List Action) :=
  let prev := if jTruthy la then la else JValue.arr []
  if jTruthy prev then
    match prev with
    | .arr l => l.mapM validateAction
    | _ => none
  else none

/-- The `confirm_execute` fallback step of `main`. -/
def confirmFallback (event : String) (st : StateRec) (r : AgentReply) : AgentReply :=
  if event == "confirm_execute" && r.actions.isEmpty then
    match reuseActions st.lastActions with
    | some acts =>
        { r with
          actions := acts
          status := "ready_to_execute"
          requires_confirmation := true
          assistant_message :=
            (if r.assistant_message == "" then
              "Using previously prepared actions. Proceeding to execution."
             else r.assistant_message) }
    | none => r
  else r

/-- Bool test that a string ends with a question mark. -/
def endsWithQmark (s : String) : Bool :=
  match s.toList.getLast? with
  | some c => c == '?'
  | none => false

/-- Bool test that `sub` occurs as a contiguous segment of `l`. -/
def isInfixL (sub : List Char) : List Char → Bool
  | [] => sub.isEmpty
  | c :: t => startsWithL sub (c :: t) || isInfixL sub t

/-- Python `sub in t` on strings. -/
def containsSub (t sub : String) : Bool := isInfixL sub.toList t.toList

/-- The synthesized size question of `postprocess_reply`. -/
def sizeQuestion : String :=
  "Should the stated size refer to side length (e.g., 2 cm per side) or area?"

/-- The synthesized position question of `postprocess_reply`. -/
def positionQuestion : String :=
  "Where should the geometry be positioned on the XY plane (e.g., centered at origin or specific coordinates)?"

/-- Embedding of `postprocess_reply`: guarantee a nonempty questions list
when clarification is needed, moving a question-shaped assistant message
into the list or synthesizing generic questions from the user text. -/
def postprocess_reply (r : AgentReply) (user_text : String) : AgentReply :=
  if r.status == "need_clarification" && r.questions.isEmpty then
    if endsWithQmark (pyStrip r.assistant_message) then
      { r with
        questions := [pyStrip r.assistant_message]
        assistant_message := "I need a detail to proceed." }
    else
      { r with questions :=
          ((if containsSub (pyLower user_text) "square"
              && (containsSub (pyLower user_text) "cm" || containsSub (pyLower user_text) "mm")
            then [sizeQuestion] else []) ++ [positionQuestion]) }
  else r

mutual

/-- A plain JSON serializer used only to fill the persisted assistant turn
(the source uses `json.dumps` there; string escaping is not needed for any
claim and is omitted). -/
def dumpJ : JValue → String
  | .null => "null"
  | .bool b => if b then "true" else "false"
  | .num n => toString n
  | .str s => "\"" ++ s ++ "\""
  | .arr xs => "[" ++ dumpList xs ++ "]"
  | .obj fs => "\x7b" ++ dumpFields fs ++ "\x7d"

/-- Comma-separated serialization of array elements. -/
def dumpList : List JValue → String
  | [] => ""
  | [x] => dumpJ x
  | x :: xs => dumpJ x ++ ", " ++ dumpList xs

/-- Comma-separated serialization of object fields. -/
def dumpFields : List (String × JValue) → String
  | [] => ""
  | [(k, v)] => "\"" ++ k ++ "\": " ++ dumpJ v
  | (k, v) :: fs => "\"" ++ k ++ "\": " ++ dumpJ v ++ ", " ++ dumpFields fs

end

/-- The persistence step of `main`: overwrite `last_status` with the final
status, overwrite `last_actions` only when the final reply carries actions,
and append the user and assistant turns to the history. -/
def persist (st : StateRec) (event : String) (user_message : String) (final : AgentReply) :
    StateRec :=
  { history := st.history
      ++ [JValue.obj [("role", .str "user"),
            ("content", .str (if event == "user_message" then user_message
                              else "[" ++ event ++ "] " ++ user_message))],
          JValue.obj [("role", .str "assistant"),
            ("content", .str (dumpJ (JValue.obj (serializeReplyFields final))))]]
  , lastStatus := JValue.str final.status
  , lastActions :=
      if final.actions.isEmpty then st.lastActions
      else JValue.arr (final.actions.map serializeAction) }

/-- Trace of one `main` invocation on the success path: the inputs to and
outputs of every step of the gating pipeline, the ask invocations made, and
the persisted state. -/
structure Trace where
  plan_confirmed : Bool
  baseMessages : List Msg
  messages1 : List Msg
  ask1 : AskResult
  messages2 : Option (List Msg)
  ask2 : Option AskResult
  afterMerge : AgentReply
  preGate : AgentReply
  afterGate : AgentReply
  afterRc : AgentReply
  afterFallback : AgentReply
  final : AgentReply
  newState : StateRec

/-- The user message of an event payload:
`(payload.get("user_message") or "").strip()`. -/
def userMsgOf (raw : String) : String := pyStrip raw

/-- The plan-approval test of `main` (event must be `user_message`, the text
must read as a confirmation, and the last recorded status must be the string
`planned`). -/
def planConfirmed (st : StateRec) (event : String) (user_message : String) : Bool :=
  event == "user_message" && is_confirmation_text user_message
    && (match st.lastStatus with | .str s => s == "planned" | _ => false)

/-- The gating pipeline of `main` after the model replies are available,
packaged as a trace together with the persisted state. -/
def finishTrace (pc : Bool) (base m1 : List Msg) (a1 : AskResult)
    (m2 : Option (List Msg)) (a2 : Option AskResult)
    (st : StateRec) (event : String) (user_message : String) : Trace :=
  let afterMerge :=
    match a2 with
    | some r2 => if !r2.reply.actions.isEmpty then r2.reply else a1.reply
    | none => a1.reply
  let preGate := addPlannedQuestion afterMerge
  let afterGate := doneGate event preGate
  let afterRc := rcFix afterGate
  let afterFallback := confirmFallback event st afterRc
  let final := postprocess_reply afterFallback user_message
  ⟨pc, base, m1, a1, m2, a2, afterMerge, preGate, afterGate, afterRc, afterFallback, final,
    persist st event user_message final⟩

/-- Embedding of the body of `main` from the parsed payload to the printed
reply: load of state, plan-approval gating, the model call (with its forced
second pass), the reply-repair pipeline, and persistence.  Exceptions from
the model client surface as the error case, handled by `runMain`. -/
def mainCore (llm : List Msg → String) (jsonLoads : String → Option JValue)
    (apiKey : Option String) (st : StateRec) (event : String) (rawUserMessage : String) :
    Except RunError Trace :=
  match ask llm jsonLoads apiKey
      (if planConfirmed st event (userMsgOf rawUserMessage) then
        build_messages_from_state st event (userMsgOf rawUserMessage) ++ [forceConvertMsg]
      else build_messages_from_state st event (userMsgOf rawUserMessage)) with
  | .error e => .error e
  | .ok a1 =>
      if planConfirmed st event (userMsgOf rawUserMessage)
          && (!(a1.reply.status == "ready_to_execute") || a1.reply.actions.isEmpty) then
        match ask llm jsonLoads apiKey
            ((if planConfirmed st event (userMsgOf rawUserMessage) then
                build_messages_from_state st event (userMsgOf rawUserMessage) ++ [forceConvertMsg]
              else build_messages_from_state st event (userMsgOf rawUserMessage))
              ++ [defaultFillMsg]) with
        | .error e => .error e
        | .ok a2 =>
            .ok (finishTrace (planConfirmed st event (userMsgOf rawUserMessage))
              (build_messages_from_state st event (userMsgOf rawUserMessage))
              (if planConfirmed st event (userMsgOf rawUserMessage) then
                build_messages_from_state st event (userMsgOf rawUserMessage) ++ [forceConvertMsg]
              else build_messages_from_state st event (userMsgOf rawUserMessage)) a1
              (some ((if planConfirmed st event (userMsgOf rawUserMessage) then
                build_messages_from_state st event (userMsgOf rawUserMessage) ++ [forceConvertMsg]
              else build_messages_from_state st event (userMsgOf rawUserMessage))
                ++ [defaultFillMsg]))
              (some a2) st event (userMsgOf rawUserMessage))
      else
        .ok (finishTrace (planConfirmed st event (userMsgOf rawUserMessage))
          (build_messages_from_state st event (userMsgOf rawUserMessage))
          (if planConfirmed st event (userMsgOf rawUserMessage) then
            build_messages_from_state st event (userMsgOf rawUserMessage) ++ [forceConvertMsg]
          else build_messages_from_state st event (userMsgOf rawUserMessage)) a1
          none none st event (userMsgOf rawUserMessage))

/-- The error text of an escaped exception (the source embeds the Python
exception text and traceback; abbreviated here). -/
def errText : RunError → String
  | .missingApiKey => "OPENAI_API_KEY environment variable is not set."
  | .coerceTypeError => "TypeError from dict coercion."

/-- The reply printed by the top-level catch-all of `main`. -/
def errorReply (e : RunError) : AgentReply :=
  { status := "need_clarification"
  , assistant_message := "LLM agent error: " ++ errText e
  , questions := [], plan := [], actions := [], requires_confirmation := false }

/-- Embedding of `main` including its catch-all: the returned pair is the
printed reply and the saved state (`none` when the exception path was taken,
since `save_state` is never reached there). -/
def runMain (llm : List Msg → String) (jsonLoads : String → Option JValue)
    (apiKey : Option String) (st : StateRec) (event : String) (rawUserMessage : String) :
    AgentReply × Option StateRec :=
  match mainCore llm jsonLoads apiKey st event rawUserMessage with
  | .ok tr => (tr.final, some tr.newState)
  | .error e => (errorReply e, none)

lemma postprocess_status (r : AgentReply) (u : String) :
    (postprocess_reply r u).status = r.status := by
  unfold postprocess_reply
  split
  · split <;> rfl
  · rfl

lemma postprocess_rc (r : AgentReply) (u : String) :
    (postprocess_reply r u).requires_confirmation = r.requires_confirmation := by
  unfold postprocess_reply
  split
  · split <;> rfl
  · rfl

lemma postprocess_actions (r : AgentReply) (u : String) :
    (postprocess_reply r u).actions = r.actions := by
  unfold postprocess_reply
  split
  · split <;> rfl
  · rfl

lemma postprocess_need_questions (r : AgentReply) (u : String) :
    (postprocess_reply r u).status = "need_clarification" →
    (postprocess_reply r u).questions ≠ [] := by
  unfold postprocess_reply
  split
  · split
    · intro _
      simp
    · intro _
      simp
  · rename_i hcond
    intro hs hq
    exact hcond (by simp [hs, hq])

lemma addPlanned_status (r : AgentReply) :
    (addPlannedQuestion r).status = r.status := by
  unfold addPlannedQuestion
  split
  · split <;> rfl
  · rfl

lemma addPlanned_actions (r : AgentReply) :
    (addPlannedQuestion r).actions = r.actions := by
  unfold addPlannedQuestion
  split
  · split <;> rfl
  · rfl

lemma doneGate_actions (event : String) (r : AgentReply) :
    (doneGate event r).actions = r.actions := by
  unfold doneGate
  split
  · split <;> rfl
  · rfl

lemma doneGate_not_done (event : String) (r : AgentReply) (hev : event ≠ "execution_result") :
    (doneGate event r).status ≠ "done" := by
  unfold doneGate
  split
  · split
    · intro h
      simp at h
    · intro h
      simp at h
  · rename_i hcond
    intro hs
    exact hcond (by simp [hs, bne_iff_ne, hev])

lemma doneGate_done_with_actions (event : String) (r : AgentReply)
    (hev : event ≠ "execution_result") (hs : r.status = "done") (ha : r.actions ≠ []) :
    (doneGate event r).status = "ready_to_execute"
    ∧ (doneGate event r).requires_confirmation = true
    ∧ (doneGate event r).actions = r.actions := by
  unfold doneGate
  rw [if_pos (show (event != "execution_result" && r.status == "done") = true by
        simp [hs, bne_iff_ne, hev]),
    if_pos (show (!r.actions.isEmpty) = true by simp [ha])]
  exact ⟨rfl, rfl, rfl⟩

lemma doneGate_done_no_actions (event : String) (r : AgentReply)
    (hev : event ≠ "execution_result") (hs : r.status = "done") (ha : r.actions = []) :
    (doneGate event r).status = "planned" ∧ (doneGate event r).actions = [] := by
  unfold doneGate
  rw [if_pos (show (event != "execution_result" && r.status == "done") = true by
        simp [hs, bne_iff_ne, hev]),
    if_neg (show ¬ (!r.actions.isEmpty) = true by simp [ha])]
  exact ⟨rfl, ha⟩

lemma rcFix_status (r : AgentReply) : (rcFix r).status = r.status := by
  unfold rcFix
  split <;> rfl

lemma rcFix_actions (r : AgentReply) : (rcFix r).actions = r.actions := by
  unfold rcFix
  split <;> rfl

lemma rcFix_inv (r : AgentReply) :
    (rcFix r).status = "ready_to_execute" → (rcFix r).requires_confirmation = true := by
  unfold rcFix
  split
  · intro _
    rfl
  · rename_i h
    intro hs
    cases hrc : r.requires_confirmation with
    | true => rfl
    | false => exact absurd (by simp [hs, hrc]) h

lemma rcFix_rc_true (r : AgentReply) (h : r.requires_confirmation = true) :
    (rcFix r).requires_confirmation = true := by
  unfold rcFix
  split
  · rfl
  · exact h

lemma confirmFallback_not_done (event : String) (st : StateRec) (r : AgentReply)
    (h : r.status ≠ "done") : (confirmFallback event st r).status ≠ "done" := by
  unfold confirmFallback
  split
  · split
    · intro hc
      simp at hc
    · exact h
  · exact h

lemma confirmFallback_inv (event : String) (st : StateRec) (r : AgentReply)
    (h : r.status = "ready_to_execute" → r.requires_confirmation = true) :
    (confirmFallback event st r).status = "ready_to_execute" →
    (confirmFallback event st r).requires_confirmation = true := by
  unfold confirmFallback
  split
  · split
    · intro _
      rfl
    · exact h
  · exact h

lemma confirmFallback_skip (event : String) (st : StateRec) (r : AgentReply)
    (ha : r.actions ≠ []) : confirmFallback event st r = r := by
  unfold confirmFallback
  rw [if_neg]
  simp [ha]

lemma confirmFallback_other (event : String) (st : StateRec) (r : AgentReply)
    (hev : event ≠ "confirm_execute") : confirmFallback event st r = r := by
  unfold confirmFallback
  rw [if_neg]
  simp [hev]

lemma confirmFallback_apply (st : StateRec) (r : AgentReply) (ha : r.actions = [])
    (acts : List Action) (hre : reuseActions st.lastActions = some acts) :
    (confirmFallback "confirm_execute" st r).status = "ready_to_execute"
    ∧ (confirmFallback "confirm_execute" st r).requires_confirmation = true
    ∧ (confirmFallback "confirm_execute" st r).actions = acts := by
  unfold confirmFallback
  rw [if_pos (by simp [ha]), hre]
  exact ⟨rfl, rfl, rfl⟩

lemma confirmFallback_fail (event : String) (st : StateRec) (r : AgentReply)
    (hre : reuseActions st.lastActions = none) : confirmFallback event st r = r := by
  unfold confirmFallback
  split
  · rw [hre]
  · rfl

lemma mainCore_ok_fields (llm : List Msg → String) (jsonLoads : String → Option JValue)
    (apiKey : Option String) (st : StateRec) (event rawU : String) (tr : Trace)
    (h : mainCore llm jsonLoads apiKey st event rawU = .ok tr) :
    tr.afterGate = doneGate event tr.preGate
    ∧ tr.afterRc = rcFix tr.afterGate
    ∧ tr.afterFallback = confirmFallback event st tr.afterRc
    ∧ tr.final = postprocess_reply tr.afterFallback (userMsgOf rawU)
    ∧ tr.newState = persist st event (userMsgOf rawU) tr.final
    ∧ tr.preGate = addPlannedQuestion tr.afterMerge := by
  unfold mainCore at h
  cases hask : ask llm jsonLoads apiKey
      (if planConfirmed st event (userMsgOf rawU) then
        build_messages_from_state st event (userMsgOf rawU) ++ [forceConvertMsg]
      else build_messages_from_state st event (userMsgOf rawU)) with
  | error e => simp only [hask] at h; cases h
  | ok a1 =>
      simp only [hask] at h
      by_cases h2 : (planConfirmed st event (userMsgOf rawU)
          && (!(a1.reply.status == "ready_to_execute") || a1.reply.actions.isEmpty)) = true
      · rw [if_pos h2] at h
        cases hask2 : ask llm jsonLoads apiKey
            ((if planConfirmed st event (userMsgOf rawU) then
                build_messages_from_state st event (userMsgOf rawU) ++ [forceConvertMsg]
              else build_messages_from_state st event (userMsgOf rawU))
              ++ [defaultFillMsg]) with
        | error e => simp only [hask2] at h; cases h
        | ok a2 =>
            simp only [hask2] at h
            cases h
            exact ⟨rfl, rfl, rfl, rfl, rfl, rfl⟩
      · rw [if_neg h2] at h
        cases h
        exact ⟨rfl, rfl, rfl, rfl, rfl, rfl⟩

/-- An empty session state (first event for a session id). -/
def stEmpty : StateRec := ⟨[], JValue.null, JValue.null⟩

/-- A well-formed persisted circle action (scenario C of the spec). -/
def circleActionJ : JValue :=
  JValue.obj [("action", JValue.str "add_circle"),
    ("params", JValue.obj [("sketch_id", JValue.str "sk_0"), ("cx", JValue.num 0),
      ("cy", JValue.num 0), ("r", JValue.num 1)])]

/-- A session state with a persisted planned status and one persisted action. -/
def stWithActions : StateRec := ⟨[], JValue.str "planned", JValue.arr [circleActionJ]⟩

/-- Claim C2 (amended): every reply returned by the orchestrator with status
`ready_to_execute` has `requires_confirmation` true; the actions list is,
however, not forced to be non-empty. -/
theorem claim_C2 (llm : List Msg → String) (jsonLoads : String → Option JValue)
    (apiKey : Option String) (st : StateRec) (event raw : String) :
    (runMain llm jsonLoads apiKey st event raw).1.status = "ready_to_execute" →
    (runMain llm jsonLoads apiKey st event raw).1.requires_confirmation = true := by
  unfold runMain
  cases hm : mainCore llm jsonLoads apiKey st event raw with
  | error e =>
      intro hs
      have hs2 : ("need_clarification" : String) = "ready_to_execute" := hs
      exact absurd hs2 (by decide)
  | ok tr =>
      obtain ⟨_, hrc, hfb, hfin, _, _⟩ :=
        mainCore_ok_fields llm jsonLoads apiKey st event raw tr hm
      intro hs
      have hs2 : tr.final.status = "ready_to_execute" := hs
      show tr.final.requires_confirmation = true
      rw [hfin, postprocess_rc]
      rw [hfin, postprocess_status] at hs2
      rw [hfb] at hs2 ⊢
      refine confirmFallback_inv event st tr.afterRc ?_ hs2
      rw [hrc]
      exact rcFix_inv tr.afterGate

/-- Claim C2 witness: a run whose model proposes a ready reply with one valid
action is returned with confirmation required. -/
theorem claim_C2_witness :
    (runMain (fun _ => "out")
        (fun _ => some (JValue.obj [("status", JValue.str "ready_to_execute"),
          ("actions", JValue.arr [circleActionJ])]))
        (some "k") stEmpty "user_message" "hello").1.requires_confirmation = true :=
  claim_C2 (fun _ => "out")
    (fun _ => some (JValue.obj [("status", JValue.str "ready_to_execute"),
      ("actions", JValue.arr [circleActionJ])]))
    (some "k") stEmpty "user_message" "hello" rfl

/-- Claim C2 counterexample: a model reply claiming `ready_to_execute` with an
empty actions list is returned as `ready_to_execute` with no actions, so the
non-emptiness half of the claim is false on the code. -/
theorem claim_C2_counterexample :
    (runMain (fun _ => "out")
        (fun _ => some (JValue.obj [("status", JValue.str "ready_to_execute")]))
        (some "k") stEmpty "user_message" "hello").1.status = "ready_to_execute"
    ∧ (runMain (fun _ => "out")
        (fun _ => some (JValue.obj [("status", JValue.str "ready_to_execute")]))
        (some "k") stEmpty "user_message" "hello").1.actions = [] :=
  ⟨rfl, rfl⟩

/-- Claim C1 (amended): for every processed event other than
`execution_result` the returned status is never `done`; if the validated
model reply claims `done` with a non-empty actions list the returned reply is
`ready_to_execute` with `requires_confirmation` true; if it claims `done`
with an empty actions list it is downgraded to `planned`, and the returned
status is `planned` — except that on a `confirm_execute` event whose
persisted `last_actions` reconstructs successfully, the fallback afterwards
promotes the reply to `ready_to_execute`. -/
theorem claim_C1 (llm : List Msg → String) (jsonLoads : String → Option JValue)
    (apiKey : Option String) (st : StateRec) (event raw : String)
    (hev : event ≠ "execution_result") :
    (runMain llm jsonLoads apiKey st event raw).1.status ≠ "done"
    ∧ (∀ tr, mainCore llm jsonLoads apiKey st event raw = .ok tr →
        tr.preGate.status = "done" → tr.preGate.actions ≠ [] →
        tr.final.status = "ready_to_execute" ∧ tr.final.requires_confirmation = true)
    ∧ (∀ tr, mainCore llm jsonLoads apiKey st event raw = .ok tr →
        tr.preGate.status = "done" → tr.preGate.actions = [] →
        (event ≠ "confirm_execute" → tr.final.status = "planned")
        ∧ (tr.final.status = "planned" ∨
            (event = "confirm_execute" ∧ tr.final.status = "ready_to_execute"
              ∧ tr.final.requires_confirmation = true))) := by
  refine ⟨?_, ?_, ?_⟩
  · unfold runMain
    cases hm : mainCore llm jsonLoads apiKey st event raw with
    | error e =>
        show ("need_clarification" : String) ≠ "done"
        decide
    | ok tr =>
        obtain ⟨hg, hrc, hfb, hfin, _, _⟩ :=
          mainCore_ok_fields llm jsonLoads apiKey st event raw tr hm
        show tr.final.status ≠ "done"
        rw [hfin, postprocess_status, hfb]
        apply confirmFallback_not_done
        rw [hrc, rcFix_status, hg]
        exact doneGate_not_done event tr.preGate hev
  · intro tr hm hdone hact
    obtain ⟨hg, hrc, hfb, hfin, _, _⟩ :=
      mainCore_ok_fields llm jsonLoads apiKey st event raw tr hm
    obtain ⟨hs1, hc1, ha1⟩ := doneGate_done_with_actions event tr.preGate hev hdone hact
    have hrcs : tr.afterRc.status = "ready_to_execute" := by rw [hrc, rcFix_status, hg, hs1]
    have hrcc : tr.afterRc.requires_confirmation = true := by
      rw [hrc]
      exact rcFix_rc_true _ (by rw [hg]; exact hc1)
    have hrca : tr.afterRc.actions ≠ [] := by
      rw [hrc, rcFix_actions, hg, ha1]
      exact hact
    have hfbeq : tr.afterFallback = tr.afterRc := by
      rw [hfb]
      exact confirmFallback_skip event st tr.afterRc hrca
    constructor
    · rw [hfin, postprocess_status, hfbeq]
      exact hrcs
    · rw [hfin, postprocess_rc, hfbeq]
      exact hrcc
  · intro tr hm hdone hact
    obtain ⟨hg, hrc, hfb, hfin, _, _⟩ :=
      mainCore_ok_fields llm jsonLoads apiKey st event raw tr hm
    obtain ⟨hs1, ha1⟩ := doneGate_done_no_actions event tr.preGate hev hdone hact
    have hrcs : tr.afterRc.status = "planned" := by rw [hrc, rcFix_status, hg, hs1]
    have hrca : tr.afterRc.actions = [] := by rw [hrc, rcFix_actions, hg, ha1]
    by_cases hevc : event = "confirm_execute"
    · subst hevc
      cases hre : reuseActions st.lastActions with
      | none =>
          have hfbeq : tr.afterFallback = tr.afterRc := by
            rw [hfb]
            exact confirmFallback_fail _ st tr.afterRc hre
          have hps : tr.final.status = "planned" := by
            rw [hfin, postprocess_status, hfbeq]
            exact hrcs
          exact ⟨fun hne => absurd rfl hne, Or.inl hps⟩
      | some acts =>
          obtain ⟨hs2, hc2, _⟩ := confirmFallback_apply st tr.afterRc hrca acts hre
          refine ⟨fun hne => absurd rfl hne, Or.inr ⟨rfl, ?_, ?_⟩⟩
          · rw [hfin, postprocess_status, hfb]
            exact hs2
          · rw [hfin, postprocess_rc, hfb]
            exact hc2
    · have hfbeq : tr.afterFallback = tr.afterRc := by
        rw [hfb]
        exact confirmFallback_other event st tr.afterRc hevc
      have hps : tr.final.status = "planned" := by
        rw [hfin, postprocess_status, hfbeq]
        exact hrcs
      exact ⟨fun _ => hps, Or.inl hps⟩

/-- Claim C1 witness: the never-done part applied to a concrete run where the
model claims done on a user_message event. -/
theorem claim_C1_witness :
    (runMain (fun _ => "out") (fun _ => some (JValue.obj [("status", JValue.str "done")]))
        (some "k") stEmpty "user_message" "hi").1.status ≠ "done" :=
  (claim_C1 (fun _ => "out") (fun _ => some (JValue.obj [("status", JValue.str "done")]))
    (some "k") stEmpty "user_message" "hi" (by decide)).1

/-- Claim C1 counterexample: on a `confirm_execute` event where the model
claims done with no actions and the session has a persisted action list, the
returned status is `ready_to_execute`, not `planned` as the claim states. -/
theorem claim_C1_counterexample :
    (mainCore (fun _ => "out") (fun _ => some (JValue.obj [("status", JValue.str "done")]))
        (some "k") stWithActions "confirm_execute" "").toOption.map
      (fun tr => (tr.preGate.status, tr.preGate.actions.length, tr.final.status))
      = some ("done", 0, "ready_to_execute") := rfl

/-- Claim C9 (amended): when the backend credential is missing the model
client raises before any model call, but the top-level handler of `main`
catches the exception and the run returns a well-formed need_clarification
reply whose message embeds the error, saving no state — the run does not
terminate with an error. -/
theorem claim_C9 (llm : List Msg → String) (jsonLoads : String → Option JValue)
    (st : StateRec) (event raw : String) :
    mainCore llm jsonLoads none st event raw = .error .missingApiKey
    ∧ runMain llm jsonLoads none st event raw = (errorReply .missingApiKey, none)
    ∧ (errorReply .missingApiKey).status = "need_clarification"
    ∧ (errorReply .missingApiKey).actions = []
    ∧ ∀ messages, ask llm jsonLoads none messages = .error .missingApiKey :=
  ⟨rfl, rfl, rfl, rfl, fun _ => rfl⟩

/-- Claim C9 counterexample: with the credential absent, processing an event
returns a well-formed need_clarification reply to the caller and no error
termination occurs, refuting the claim that the run fails rather than
returning a degraded reply. -/
theorem claim_C9_counterexample :
    (runMain (fun _ => "out") (fun _ => none) none stEmpty "user_message" "hi").1.status
        = "need_clarification"
    ∧ (runMain (fun _ => "out") (fun _ => none) none stEmpty "user_message" "hi").1.requires_confirmation
        = false
    ∧ (runMain (fun _ => "out") (fun _ => none) none stEmpty "user_message" "hi").2 = none :=
  ⟨rfl, rfl, rfl⟩

/-- Claim C10: on the success path of every processed event, the persisted
`last_actions` is left unchanged when the final reply has an empty actions
list, while `last_status` is overwritten with the final reply's status. -/
theorem claim_C10 (llm : List Msg → String) (jsonLoads : String → Option JValue)
    (apiKey : Option String) (st : StateRec) (event raw : String) :
    ∀ tr, mainCore llm jsonLoads apiKey st event raw = .ok tr →
      (tr.final.actions = [] → tr.newState.lastActions = st.lastActions)
      ∧ tr.newState.lastStatus = JValue.str tr.final.status := by
  intro tr hm
  obtain ⟨_, _, _, _, hns, _⟩ :=
    mainCore_ok_fields llm jsonLoads apiKey st event raw tr hm
  rw [hns]
  constructor
  · intro ha
    simp [persist, ha]
  · rfl

/-- Claim C10 witness: the persisted status equals the final status on a
concrete successful run. -/
theorem claim_C10_witness :
    (mainCore (fun _ => "out") (fun _ => none) (some "k") stEmpty "user_message" "hey").toOption.map
        (fun tr => tr.newState.lastStatus)
      = (mainCore (fun _ => "out") (fun _ => none) (some "k") stEmpty "user_message" "hey").toOption.map
        (fun tr => JValue.str tr.final.status) := by
  cases hm : mainCore (fun _ => "out") (fun _ => none) (some "k") stEmpty "user_message" "hey" with
  | error e => rfl
  | ok tr =>
      have h := (claim_C10 (fun _ => "out") (fun _ => none) (some "k") stEmpty
        "user_message" "hey" tr hm).2
      show some tr.newState.lastStatus = some (JValue.str tr.final.status)
      rw [h]

/-- Claim C3 (amended): on a `confirm_execute` event, when the reply reaching
the fallback carries no actions: if the persisted `last_actions` list is
non-empty and every entry validates, the orchestrator reconstructs the Action
objects and returns `ready_to_execute` with `requires_confirmation` true and
exactly those actions; if the persisted list is empty or fails validation,
the reply keeps its gated status and empty actions — it is
`need_clarification` with a non-empty questions list only when the gated
reply already had that status (postprocessing then guarantees a non-empty
questions list). -/
theorem claim_C3 (llm : List Msg → String) (jsonLoads : String → Option JValue)
    (apiKey : Option String) (st : StateRec) (raw : String) :
    ∀ tr, mainCore llm jsonLoads apiKey st "confirm_execute" raw = .ok tr →
      tr.afterRc.actions = [] →
      (∀ acts, reuseActions st.lastActions = some acts →
        tr.final.status = "ready_to_execute" ∧ tr.final.requires_confirmation = true
          ∧ tr.final.actions = acts)
      ∧ (reuseActions st.lastActions = none →
          tr.final.actions = [] ∧ tr.final.status = tr.afterRc.status
            ∧ (tr.final.status = "need_clarification" → tr.final.questions ≠ [])) := by
  intro tr hm hact
  obtain ⟨_, _, hfb, hfin, _, _⟩ :=
    mainCore_ok_fields llm jsonLoads apiKey st "confirm_execute" raw tr hm
  constructor
  · intro acts hre
    obtain ⟨hs2, hc2, ha2⟩ := confirmFallback_apply st tr.afterRc hact acts hre
    refine ⟨?_, ?_, ?_⟩
    · rw [hfin, postprocess_status, hfb]
      exact hs2
    · rw [hfin, postprocess_rc, hfb]
      exact hc2
    · rw [hfin, postprocess_actions, hfb]
      exact ha2
  · intro hre
    have hfbeq : tr.afterFallback = tr.afterRc := by
      rw [hfb]
      exact confirmFallback_fail _ st tr.afterRc hre
    refine ⟨?_, ?_, ?_⟩
    · rw [hfin, postprocess_actions, hfbeq]
      exact hact
    · rw [hfin, postprocess_status, hfbeq]
    · rw [hfin]
      exact postprocess_need_questions tr.afterFallback (userMsgOf raw)

/-- Claim C3 witness: the reconstruction branch applied to a concrete run
with a persisted circle action and a model reply with no actions. -/
theorem claim_C3_witness :
    (mainCore (fun _ => "out") (fun _ => some (JValue.obj [("status", JValue.str "planned")]))
        (some "k") stWithActions "confirm_execute" "x").toOption.map (fun tr => tr.final.status)
      = some "ready_to_execute" := by
  have hok : (mainCore (fun _ => "out")
      (fun _ => some (JValue.obj [("status", JValue.str "planned")]))
      (some "k") stWithActions "confirm_execute" "x").toOption.isSome = true := rfl
  have hacts : (mainCore (fun _ => "out")
      (fun _ => some (JValue.obj [("status", JValue.str "planned")]))
      (some "k") stWithActions "confirm_execute" "x").toOption.map
        (fun tr => tr.afterRc.actions) = some [] := rfl
  have hre : reuseActions stWithActions.lastActions
      = some [⟨"add_circle", [("sketch_id", JValue.str "sk_0"), ("cx", JValue.num 0),
          ("cy", JValue.num 0), ("r", JValue.num 1)]⟩] := rfl
  cases hm : mainCore (fun _ => "out")
      (fun _ => some (JValue.obj [("status", JValue.str "planned")]))
      (some "k") stWithActions "confirm_execute" "x" with
  | error e =>
      rw [hm] at hok
      cases (hok : (false : Bool) = true)
  | ok tr =>
      rw [hm] at hacts
      have hacts2 : tr.afterRc.actions = [] := Option.some.inj hacts
      have h3 := (claim_C3 (fun _ => "out")
        (fun _ => some (JValue.obj [("status", JValue.str "planned")]))
        (some "k") stWithActions "x" tr hm hacts2).1 _ hre
      show some tr.final.status = some "ready_to_execute"
      rw [h3.1]

/-- Claim C3 counterexample: on `confirm_execute` with no persisted actions
and a model reply `planned` with no actions, the returned status is
`planned`, not `need_clarification` as the claim requires. -/
theorem claim_C3_counterexample :
    (runMain (fun _ => "out") (fun _ => some (JValue.obj [("status", JValue.str "planned")]))
        (some "k") stEmpty "confirm_execute" "").1.status = "planned" := rfl

/-- Modelled from the spec: the confirmation vocabulary exactly as the claim
states it — case-insensitive match against eleven fixed words, or any text
whose lower-casing starts with `yes` or `ok`.  Used only as the hypothesis of
claim C7; the code's own vocabulary is `is_confirmation_text`. -/
def claimConfirmVocab (t : String) : Bool :=
  (["yes", "y", "ok", "okay", "sure", "proceed", "confirm", "go ahead",
    "looks good", "sounds good", "do it"].any
      (fun w => lowerL t.toList == w.toList))
    || startsWithL "yes".toList (lowerL t.toList)
    || startsWithL "ok".toList (lowerL t.toList)

lemma toNat_ofNat_small (n : Nat) (h : n < 55296) : (Char.ofNat n).toNat = n := by
  unfold Char.ofNat
  rw [dif_pos (Or.inl h)]
  rfl

lemma pySpace_toLower (c : Char) : pySpace (Char.toLower c) = pySpace c := by
  unfold Char.toLower
  show pySpace (if c.toNat ≥ 65 ∧ c.toNat ≤ 90 then Char.ofNat (c.toNat + 32) else c)
    = pySpace c
  split
  · rename_i h
    have ht : (Char.ofNat (Char.toNat c + 32)).toNat = Char.toNat c + 32 :=
      toNat_ofNat_small _ (by omega)
    have hlow : ∀ m : Nat, 65 ≤ m →
        (m == 32 || m == 9 || m == 10 || m == 13 || m == 11 || m == 12) = false := by
      intro m hm
      simp only [Bool.or_eq_false_iff, beq_eq_false_iff_ne, ne_eq]
      omega
    unfold pySpace
    rw [ht, hlow _ (by omega), hlow _ (by omega)]
  · rfl

lemma map_toLower_dropWhile (m : List Char) :
    (m.dropWhile pySpace).map Char.toLower = (m.map Char.toLower).dropWhile pySpace := by
  rw [List.dropWhile_map]
  have hfun : (pySpace ∘ Char.toLower) = pySpace := funext pySpace_toLower
  rw [hfun]

lemma lowerL_stripL (l : List Char) : lowerL (stripL l) = stripL (lowerL l) := by
  unfold lowerL stripL
  rw [List.map_reverse, map_toLower_dropWhile, List.map_reverse, map_toLower_dropWhile]

lemma dropWhile_eq_self_of_head (p : Char → Bool) (l : List Char)
    (h : ∀ c, l.head? = some c → p c = false) : List.dropWhile p l = l := by
  cases l with
  | nil => rfl
  | cons c t =>
      rw [List.dropWhile_cons, if_neg]
      simp [h c rfl]

lemma stripL_take_eq (a l : List Char) (hne : a ≠ [])
    (ha : ∀ c ∈ a, pySpace c = false) (h : l.take a.length = a) :
    (stripL l).take a.length = a := by
  cases a with
  | nil => exact absurd rfl hne
  | cons c a' =>
      have hdecomp : l = (c :: a') ++ l.drop (c :: a').length := by
        conv_lhs => rw [← List.take_append_drop (c :: a').length l]
        rw [h]
      have hc : pySpace c = false := ha c (by simp)
      have h1 : List.dropWhile pySpace l = l := by
        conv_lhs => rw [hdecomp]
        rw [List.cons_append, List.dropWhile_cons, if_neg (by simp [hc]), ← List.cons_append,
          ← hdecomp]
      unfold stripL
      rw [h1]
      conv_lhs => rw [hdecomp]
      rw [List.reverse_append, List.dropWhile_append]
      by_cases hcase :
          (List.dropWhile pySpace (l.drop (c :: a').length).reverse).isEmpty = true
      · rw [if_pos hcase]
        have h2 : List.dropWhile pySpace (c :: a').reverse = (c :: a').reverse := by
          apply dropWhile_eq_self_of_head
          intro d hd
          apply ha
          rw [List.head?_reverse] at hd
          exact List.mem_of_getLast?_eq_some hd
        rw [h2, List.reverse_reverse]
        exact List.take_length _
      · rw [if_neg hcase]
        rw [List.reverse_append, List.reverse_reverse]
        exact List.take_left _ _

lemma stripped_confirm_of_take (w a : List Char) (hne : a ≠ [])
    (ha : ∀ c ∈ a, pySpace c = false) (htake : w.take a.length = a) :
    (stripL (stripL w)).take a.length = a ∧ (stripL (stripL w)).isEmpty = false := by
  have h1 := stripL_take_eq a w hne ha htake
  have h2 := stripL_take_eq a (stripL w) hne ha h1
  refine ⟨h2, ?_⟩
  have h3 := congrArg List.length h2
  rw [List.length_take] at h3
  have h4 : min a.length (stripL (stripL w)).length ≤ (stripL (stripL w)).length :=
    Nat.min_le_right _ _
  rw [h3] at h4
  cases hL : stripL (stripL w) with
  | nil =>
      rw [hL] at h4
      simp at h4
      exact absurd h4 hne
  | cons x xs => rfl

lemma claimVocab_is_confirmation (raw : String) (h : claimConfirmVocab raw = true) :
    is_confirmation_text (userMsgOf raw) = true := by
  have hgoal : is_confirmation_text (userMsgOf raw)
      = (!(stripL (stripL (lowerL raw.toList))).isEmpty &&
        (confirmWords.any (fun w => stripL (stripL (lowerL raw.toList)) == w.toList)
          || startsWithL "yes".toList (stripL (stripL (lowerL raw.toList)))
          || startsWithL "ok".toList (stripL (stripL (lowerL raw.toList))))) := by
    show (!(lowerL (stripL (stripL raw.toList))).isEmpty &&
        (confirmWords.any (fun w => lowerL (stripL (stripL raw.toList)) == w.toList)
          || startsWithL "yes".toList (lowerL (stripL (stripL raw.toList)))
          || startsWithL "ok".toList (lowerL (stripL (stripL raw.toList))))) = _
    rw [lowerL_stripL, lowerL_stripL]
  rw [hgoal]
  unfold claimConfirmVocab at h
  rcases Bool.or_eq_true_iff.mp h with h12 | h3
  · rcases Bool.or_eq_true_iff.mp h12 with h1 | h2
    · -- exact-word match
      obtain ⟨word, hmem, hw⟩ := List.any_eq_true.mp h1
      have hw' : lowerL raw.toList = word.toList := eq_of_beq hw
      fin_cases hmem <;> (rw [hw']; decide)
    · -- starts with yes
      unfold startsWithL at h2
      have htake : (lowerL raw.toList).take ("yes".toList.length) = "yes".toList :=
        eq_of_beq h2
      obtain ⟨ht2, hne2⟩ := stripped_confirm_of_take (lowerL raw.toList) "yes".toList
        (by decide) (by decide) htake
      have hsw : startsWithL "yes".toList (stripL (stripL (lowerL raw.toList))) = true := by
        unfold startsWithL
        rw [ht2]
        decide
      rw [hne2, hsw]
      simp
  · -- starts with ok
    unfold startsWithL at h3
    have htake : (lowerL raw.toList).take ("ok".toList.length) = "ok".toList :=
      eq_of_beq h3
    obtain ⟨ht2, hne2⟩ := stripped_confirm_of_take (lowerL raw.toList) "ok".toList
      (by decide) (by decide) htake
    have hsw : startsWithL "ok".toList (stripL (stripL (lowerL raw.toList))) = true := by
      unfold startsWithL
      rw [ht2]
      decide
    rw [hne2, hsw]
    simp

/-- Claim C7: whenever the user's text of a `user_message` event matches the
claim's fixed confirmation vocabulary (case-insensitively: the eleven listed
words, or any text starting with `yes` or `ok`) and the session's last
recorded status is `planned`, the directive forcing conversion of the plan
into actions is appended to the messages before the model call; and if the
resulting reply is still not `ready_to_execute` with non-empty actions,
exactly one additional corrective pass with the default-filling instruction
is made, whose result replaces the original reply exactly when it yields
actions. -/
theorem claim_C7 (llm : List Msg → String) (jsonLoads : String → Option JValue)
    (apiKey : Option String) (st : StateRec) (raw : String)
    (hvocab : claimConfirmVocab raw = true)
    (hst : st.lastStatus = JValue.str "planned") :
    ∀ tr, mainCore llm jsonLoads apiKey st "user_message" raw = .ok tr →
      tr.messages1 = tr.baseMessages ++ [forceConvertMsg]
      ∧ ((tr.ask1.reply.status ≠ "ready_to_execute" ∨ tr.ask1.reply.actions = []) →
          tr.messages2 = some (tr.messages1 ++ [defaultFillMsg])
          ∧ ∃ a2, tr.ask2 = some a2
            ∧ (a2.reply.actions ≠ [] → tr.afterMerge = a2.reply)
            ∧ (a2.reply.actions = [] → tr.afterMerge = tr.ask1.reply))
      ∧ (tr.ask1.reply.status = "ready_to_execute" ∧ tr.ask1.reply.actions ≠ [] →
          tr.messages2 = none ∧ tr.ask2 = none ∧ tr.afterMerge = tr.ask1.reply) := by
  have hpc : planConfirmed st "user_message" (userMsgOf raw) = true := by
    unfold planConfirmed
    rw [hst, claimVocab_is_confirmation raw hvocab]
    rfl
  intro tr hm
  unfold mainCore at hm
  simp only [hpc, if_true, Bool.true_and] at hm
  cases hask : ask llm jsonLoads apiKey
      (build_messages_from_state st "user_message" (userMsgOf raw) ++ [forceConvertMsg]) with
  | error e => simp only [hask] at hm; cases hm
  | ok a1 =>
      simp only [hask] at hm
      by_cases hcond :
          (!(a1.reply.status == "ready_to_execute") || a1.reply.actions.isEmpty) = true
      · rw [if_pos hcond] at hm
        cases hask2 : ask llm jsonLoads apiKey
            (build_messages_from_state st "user_message" (userMsgOf raw) ++ [forceConvertMsg]
              ++ [defaultFillMsg]) with
        | error e => simp only [hask2] at hm; cases hm
        | ok a2 =>
            simp only [hask2] at hm
            cases hm
            refine ⟨rfl, ?_, ?_⟩
            · intro _
              refine ⟨rfl, a2, rfl, ?_, ?_⟩
              · intro hne
                show (if !a2.reply.actions.isEmpty then a2.reply else a1.reply) = a2.reply
                rw [if_pos (by simp [hne])]
              · intro hemp
                show (if !a2.reply.actions.isEmpty then a2.reply else a1.reply) = a1.reply
                rw [if_neg (by simp [hemp])]
            · rintro ⟨hs, ha⟩
              have hs2 : a1.reply.status = "ready_to_execute" := hs
              have ha2 : a1.reply.actions ≠ [] := ha
              rw [hs2] at hcond
              simp at hcond
              exact absurd hcond ha2
      · rw [if_neg hcond] at hm
        cases hm
        refine ⟨rfl, ?_, fun _ => ⟨rfl, rfl, rfl⟩⟩
        intro hcnd
        exfalso
        apply hcond
        rcases hcnd with hs | ha
        · have hs2 : a1.reply.status ≠ "ready_to_execute" := hs
          have : (a1.reply.status == "ready_to_execute") = false :=
            beq_eq_false_iff_ne.mpr hs2
          rw [this]
          simp
        · have ha2 : a1.reply.actions = [] := ha
          rw [ha2]
          simp

/-- Claim C7 witness: the forced directive is present in the first message
list of a concrete approved-plan run. -/
theorem claim_C7_witness :
    (mainCore (fun _ => "out") (fun _ => none) (some "k") stWithActions
        "user_message" "yes").toOption.map (fun tr => tr.messages1)
      = (mainCore (fun _ => "out") (fun _ => none) (some "k") stWithActions
          "user_message" "yes").toOption.map
          (fun tr => tr.baseMessages ++ [forceConvertMsg]) := by
  cases hm : mainCore (fun _ => "out") (fun _ => none) (some "k") stWithActions
      "user_message" "yes" with
  | error e => rfl
  | ok tr =>
      have h := (claim_C7 (fun _ => "out") (fun _ => none) (some "k") stWithActions "yes"
        (by decide) rfl tr hm).1
      show some tr.messages1 = some (tr.baseMessages ++ [forceConvertMsg])
      rw [h]

end AgentRunner
